import Mathlib

/-!
A shallow embedding, in Lean 4, of the core of the EasyScripts
`YoutubeTranscriptDownloader` repository (three Python files:
`YoutubeTranscriptDownloader.py`, `AiReformatter.py`, `prettyPrint.py`),
together with theorems settling the frozen claims about it.

Modelling conventions:
* Python strings are Lean `String`/`List Char`; the character classes of the
  regexes (`\w`, `\s`, `\d`) are modelled on their ASCII fragment (Lean's
  `Char.isAlpha`/`isDigit`), which is where every claim lives; all filter,
  idempotence and path arguments are parametric in the exact predicate.
* The filesystem is modelled explicitly: a map from path strings to file
  contents plus a set of existing directories.  `os.path.join` uses "/".
* External library calls (`json.loads`, the OpenAI client, `os.walk`) are
  modelled by their results, which are taken as inputs of the embedded
  functions; the repository's own logic downstream of those results is
  translated faithfully.
* Machine integers do not occur; all counts are `Nat`.
-/

namespace EasyScripts

/-! ## Character classes of the shared sanitisation regex `[^\w\-\s]` -/

/-- Python regex `\w` (ASCII fragment): letters, digits, underscore. -/
def isWordChar (c : Char) : Bool :=
  c.isAlpha || c.isDigit || c = '_'

/-- Python regex `\s` / `str.strip()` whitespace (ASCII fragment):
space, tab, newline, carriage return, vertical tab, form feed. -/
def isPySpace (c : Char) : Bool :=
  c = ' ' || c = '\t' || c = '\n' || c = '\r' || c = '\x0b' || c = '\x0c'

/-- A character kept by `re.sub(r"[^\w\-\s]", "", _)`: word characters,
the hyphen, and whitespace survive; everything else is stripped. -/
def keepChar (c : Char) : Bool :=
  isWordChar c || c = '-' || isPySpace c

/-! ## `AiReformatter._sanitize_filename` (AiReformatter.py lines 43-46)

```python
def _sanitize_filename(self, title: str) -> str:
    sanitized = re.sub(r"[^\w\-\s]", "", title)
    return sanitized
```
-/

/-- `AiReformatter._sanitize_filename`: pure strip of disallowed characters,
no trimming, no truncation, no empty-name substitution. -/
def sanitizeFilenameA (title : String) : String :=
  ⟨title.data.filter keepChar⟩

/-! ## `sanitize_filename` (YoutubeTranscriptDownloader.py lines 93-97)

```python
def sanitize_filename(name, max_length=TRANSCRIPT_FILENAME_LENGTH):
    pattern = REGEX_PATTERNS.get("sanitize_filename", r"[^\w\-\s]")
    sanitized = re.sub(pattern, "", name).strip()[:max_length]
    return sanitized if sanitized else "untitled"
```
The default configuration has `TRANSCRIPT_FILENAME_LENGTH = 36` and the
default pattern above; the embedding fixes that default configuration. -/

/-- `str.strip()` on a character list: drop whitespace at both ends. -/
def pyStrip (l : List Char) : List Char :=
  ((l.dropWhile isPySpace).reverse.dropWhile isPySpace).reverse

/-- Core of the downloader's `sanitize_filename` on character lists:
strip disallowed characters, trim surrounding whitespace, truncate. -/
def sanitizeCore (maxLength : Nat) (name : List Char) : List Char :=
  (pyStrip (name.filter keepChar)).take maxLength

/-- `sanitize_filename` of the downloader (default configuration,
`max_length = 36` unless passed explicitly). -/
def sanitize_filename (maxLength : Nat) (name : String) : String :=
  let s := sanitizeCore maxLength name.data
  if s.isEmpty then "untitled" else ⟨s⟩

/-- The configured default `TRANSCRIPT_FILENAME_LENGTH`. -/
def TRANSCRIPT_FILENAME_LENGTH : Nat := 36

/-! ## `format_duration` (YoutubeTranscriptDownloader.py lines 125-135)

```python
def format_duration(iso_duration):
    pattern = REGEX_PATTERNS.get("iso_duration", r"PT(?:(\d+)H)?(?:(\d+)M)?(?:(\d+)S)?")
    match = re.match(pattern, iso_duration)
    if not match:
        return "00:00"
    hours, minutes, _ = match.groups()
    hours = int(hours) if hours else 0
    minutes = int(minutes) if minutes else 0
    return f"{hours:02}:{minutes:02}"
```
`re.match` anchors only at the start of the string.  Each optional group
`(?:(\d+)X)?` matches exactly when the current position starts with a
non-empty digit run followed immediately by the letter `X` (backtracking
inside the digit run cannot help, since every proper prefix of the run is
followed by another digit, not by `X`). -/

/-- Numeric value of a digit run, as `int()` computes it. -/
def natOfDigits (l : List Char) : Nat :=
  l.foldl (fun a c => 10 * a + (c.toNat - 48)) 0

/-- One optional regex group `(?:(\d+)X)?` at the current position:
returns the captured number (if the group participates) and the rest. -/
def matchGroup (x : Char) (l : List Char) : Option Nat × List Char :=
  let run := l.takeWhile Char.isDigit
  let rest := l.drop run.length
  if run.isEmpty then
    (none, l)
  else
    match rest with
    | c :: rest2 => if c = x then (some (natOfDigits run), rest2) else (none, l)
    | [] => (none, l)

/-- `re.match` of the default ISO-duration pattern against `s`:
`none` when the match fails (no leading `PT`), otherwise the three
captured groups (hours, minutes, seconds). -/
def isoMatch (s : String) : Option (Option Nat × Option Nat × Option Nat) :=
  match s.data with
  | 'P' :: 'T' :: rest =>
    let (h, r1) := matchGroup 'H' rest
    let (m, r2) := matchGroup 'M' r1
    let (sec, _) := matchGroup 'S' r2
    some (h, m, sec)
  | _ => none

/-- Python `f"{n:02}"` for a non-negative integer. -/
def pad2 (n : Nat) : String :=
  if n < 10 then "0" ++ toString n else toString n

/-- `format_duration`: convert an ISO 8601 duration to `hh:mm`,
discarding the seconds group; `"00:00"` when the regex does not match. -/
def format_duration (iso_duration : String) : String :=
  match isoMatch iso_duration with
  | none => "00:00"
  | some (hours, minutes, _) => pad2 (hours.getD 0) ++ ":" ++ pad2 (minutes.getD 0)

/-! ## JSON values

`json.loads` produces Python dicts/lists/strings/numbers/booleans/None;
the embedding represents that result directly.  Numbers are modelled as
integers (no claim touches floating point).  Objects are key/value lists
in textual order; `json.loads` collapses duplicate keys, so lookups are
unambiguous on parser output. -/

inductive JValue where
  | jnull : JValue
  | jbool (b : Bool) : JValue
  | jnum (n : Int) : JValue
  | jstr (s : String) : JValue
  | jarr (elems : List JValue) : JValue
  | jobj (fields : List (String × JValue)) : JValue

/-- Python truthiness of a parsed JSON value (`if x:`): `None`, `False`,
`0`, `""`, `[]` and the empty dict are falsy, everything else truthy. -/
def truthy : JValue → Bool
  | .jnull => false
  | .jbool b => b
  | .jnum n => n != 0
  | .jstr s => !s.isEmpty
  | .jarr l => !l.isEmpty
  | .jobj f => !f.isEmpty

/-- Python `value.get(k)` on a parsed JSON value: `none` when `value` is
not an object or lacks the key.  (On a non-dict, the Python attribute
error is raised inside the same `try` whose handler returns `None`, so
the observable outcome coincides.) -/
def jget (v : JValue) (k : String) : Option JValue :=
  match v with
  | .jobj fields => fields.lookup k
  | _ => none

/-- Truthiness of `value.get(k)` as used by the response validity check. -/
def truthyField (v : JValue) (k : String) : Bool :=
  match jget v k with
  | some x => truthy x
  | none => false

/-! ## `json.dump(obj, f, ensure_ascii=False, indent=4)`

With an indent, Python separates items by `",\n"` and keys from values by
`": "`.  With `ensure_ascii=False` only `"`, `\`, and control characters
below U+0020 are escaped; every other character — in particular every
non-ASCII character — is written verbatim. -/

/-- Lowercase hexadecimal digit, as in Python's `\uXXXX` escapes. -/
def hexDigit (n : Nat) : Char :=
  if n < 10 then Char.ofNat (48 + n) else Char.ofNat (87 + n)

/-- Escape one character as Python's JSON encoder does with
`ensure_ascii=False`. -/
def escapeChar (c : Char) : String :=
  if c = '"' then "\\\""
  else if c = '\\' then "\\\\"
  else if c = '\n' then "\\n"
  else if c = '\r' then "\\r"
  else if c = '\t' then "\\t"
  else if c = '\x08' then "\\b"
  else if c = '\x0c' then "\\f"
  else if c.toNat < 32 then
    "\\u00" ++ String.singleton (hexDigit (c.toNat / 16))
      ++ String.singleton (hexDigit (c.toNat % 16))
  else String.singleton c

/-- A JSON string literal under `ensure_ascii=False`. -/
def dumpStr (s : String) : String :=
  "\"" ++ String.join (s.data.map escapeChar) ++ "\""

/-- `indent=4` indentation at nesting level `n`. -/
def indentStr (n : Nat) : String :=
  ⟨List.replicate (4 * n) ' '⟩

mutual

/-- Serialise one JSON value at nesting level `lvl`
(`json.dumps(..., ensure_ascii=False, indent=4)`). -/
def dumpsVal : JValue → Nat → String
  | .jnull, _ => "null"
  | .jbool b, _ => if b then "true" else "false"
  | .jnum n, _ => toString n
  | .jstr s, _ => dumpStr s
  | .jarr [], _ => "[]"
  | .jarr (x :: xs), lvl =>
    "[\n" ++ dumpsItems (x :: xs) (lvl + 1) ++ "\n" ++ indentStr lvl ++ "]"
  | .jobj [], _ => "\x7b\x7d"
  | .jobj (f :: fs), lvl =>
    "\x7b\n" ++ dumpsFields (f :: fs) (lvl + 1) ++ "\n" ++ indentStr lvl ++ "\x7d"

/-- Serialise array items, one per line, comma-separated. -/
def dumpsItems : List JValue → Nat → String
  | [], _ => ""
  | [x], lvl => indentStr lvl ++ dumpsVal x lvl
  | x :: y :: xs, lvl =>
    indentStr lvl ++ dumpsVal x lvl ++ ",\n" ++ dumpsItems (y :: xs) lvl

/-- Serialise object fields, one per line, comma-separated. -/
def dumpsFields : List (String × JValue) → Nat → String
  | [], _ => ""
  | [(k, v)], lvl => indentStr lvl ++ dumpStr k ++ ": " ++ dumpsVal v lvl
  | (k, v) :: g :: fs, lvl =>
    indentStr lvl ++ dumpStr k ++ ": " ++ dumpsVal v lvl ++ ",\n"
      ++ dumpsFields (g :: fs) lvl

end

/-- `json.dump(obj, f, ensure_ascii=False, indent=4)`: the exact text
written to the output file. -/
def pyDumps (v : JValue) : String :=
  dumpsVal v 0

/-! ## Filesystem model

Paths are strings joined with `/` (`os.path.join` on POSIX).  `files`
maps a path to the content of the file stored there; `dirs` records
which directories exist. -/

structure FS where
  files : String → Option String
  dirs : String → Bool

/-- `open(path, "w")` followed by a full write: creates or truncates,
so any previous content at `path` is replaced. -/
def writeFile (fs : FS) (path content : String) : FS :=
  { fs with files := fun q => if q = path then some content else fs.files q }

/-- `os.makedirs(os.path.join("processed", ch), exist_ok=True)`: creates
the channel directory and its parent `processed`, succeeding silently
when they already exist. -/
def makedirsProcessed (fs : FS) (channelDir : String) : FS :=
  { fs with dirs := fun q =>
      if q = "processed" || q = channelDir then true else fs.dirs q }

/-! ## `AiReformatter.reformat_transcript` (AiReformatter.py lines 97-203)

The embedding covers the post-request logic (lines 158-203): the network
call is external, so the function takes the outcome of
`json.loads(response.choices[0].message.content)` as its `parsed`
argument — `none` when the content is missing, empty, or fails to parse
(the raised exception is caught at line 201 and the function returns
`None` with no write).  Input documents are modelled with the one
metadata field the function reads. -/

structure Metadata where
  channel_name : String
deriving DecidableEq

structure InputDoc where
  metadata : Metadata
  transcript : List String
deriving DecidableEq

/-- `reformat_transcript`, given the filesystem, the input document and
the parse outcome of the model response.  Returns the Python return
value (`some` response object or `none`) and the resulting filesystem.
When the response is valid but its `title` is a truthy non-string,
`re.sub` raises `TypeError` after the directory was created; the handler
returns `None`, which the final match arm reproduces. -/
def reformat_transcript (fs : FS) (input : InputDoc) (parsed : Option JValue) :
    Option JValue × FS :=
  match parsed with
  | none => (none, fs)
  | some resp =>
    if truthyField resp "title" && truthyField resp "summary"
        && truthyField resp "content" then
      let channel_name := sanitizeFilenameA input.metadata.channel_name
      let output_dir := "processed/" ++ channel_name
      let fs1 := makedirsProcessed fs output_dir
      match jget resp "title" with
      | some (.jstr t) =>
        let filename := sanitizeFilenameA t ++ ".json"
        let filepath := output_dir ++ "/" ++ filename
        (some resp, writeFile fs1 filepath (pyDumps resp))
      | _ => (none, fs1)
    else (none, fs)

/-! ## Provider registry (AiReformatter.py lines 28-41 and 221-262)

The credentials store is the `"ai-providers"` dict of `API_KEY.json`,
mapping provider names to profiles.  A profile carries the fields the
program reads: `api_key`, `base_url`, optional `model`, display `name`. -/

structure ProviderProfile where
  api_key : String
  base_url : String
  model : Option String
  name : String
deriving DecidableEq

/-- The configured OpenAI client: `OpenAI(api_key=..., base_url=...)`. -/
structure Client where
  api_key : String
  base_url : String
deriving DecidableEq

/-- The `"ai-providers"` mapping of the credentials store. -/
def Store : Type := String → Option ProviderProfile

/-- `AiReformatter.set_provider` (lines 28-38): look the name up in the
store; on success configure the client from the profile's key and base
URL and record the profile.  When the name is absent the Python prints
the not-found message and then raises `TypeError` at
`provider["api_key"]`, so no client is ever configured; both the print
and the crash are modelled as the `none` outcome. -/
def set_provider (store : Store) (provider_name : String) :
    Option (ProviderProfile × Client) :=
  match store provider_name with
  | some p => some (p, ⟨p.api_key, p.base_url⟩)
  | none => none

/-- The store update performed by `select_ai_provider` when the user
confirms the default (lines 250-255):
`api_keys["ai-providers"]["default"] = api_keys["ai-providers"][selected]`
followed by `json.dump` of the whole store, so a subsequent load of the
persisted file yields exactly this mapping. -/
def setDefaultProvider (store : Store) (selected : String) : Store :=
  fun k => if k = "default" then store selected else store k

/-! ## Batch processing (AiReformatter.py lines 205-219)

```python
def process_file(self, input_file_path):
    with open(input_file_path, "r", encoding="utf-8") as f:
        iprint(...)
        input_json = json.load(f)
    return asyncio.run(self.reformat_transcript(input_json))

def process_directory(self, input_dir):
    wprint(...)
    for filename in os.listdir(input_dir):
        if filename.endswith(".json"):
            input_file_path = os.path.join(input_dir, filename)
            self.process_file(input_file_path)
```
Neither function catches exceptions: a file whose `json.load` raises
propagates out of the `for` loop and aborts the whole batch. -/

/-- Python `s.endswith(suffix)` on the character lists of the two
strings. -/
def endsWithStr (s suffix : String) : Bool :=
  List.isSuffixOf suffix.data s.data

/-- A directory entry as the batch sees it: its name, and the outcome
of opening it — `none` models a file whose `json.load` raises, `some`
carries the loaded document together with the model response the
network returns for it. -/
structure DirEntry where
  name : String
  load : Option (InputDoc × Option JValue)

/-- `process_file` on one entry: an uncaught `json.load` exception is
`Except.error`; otherwise the reformat result and filesystem. -/
def process_file (fs : FS) (e : DirEntry) : Except Unit (Option JValue × FS) :=
  match e.load with
  | none => Except.error ()
  | some (doc, parsed) => Except.ok (reformat_transcript fs doc parsed)

/-- `process_directory` over the `os.listdir` listing.  Returns the final
filesystem, the names handed to `process_file` in order (a ghost trace,
recorded for specification only), and whether the batch was aborted by
an uncaught exception (in which case the remaining entries are never
visited and the filesystem keeps every write made so far). -/
def process_directory (fs : FS) : List DirEntry → FS × List String × Bool
  | [] => (fs, [], false)
  | e :: rest =>
    if endsWithStr e.name ".json" then
      match process_file fs e with
      | Except.error _ => (fs, [e.name], true)
      | Except.ok pr =>
        let r := process_directory pr.2 rest
        (r.1, e.name :: r.2.1, r.2.2)
    else process_directory fs rest

/-! ## Duplicate detection (YoutubeTranscriptDownloader.py lines 276-327)

```python
hashes = {}
duplicates = []
for root, _, files in os.walk(transcripts_dir):
    for file in files:
        if file.endswith(".txt"):
            file_path = os.path.join(root, file)
            file_hash = compute_sha1(file_path)
            if file_hash in hashes:
                duplicates.append((file_path, hashes[file_hash]))
            else:
                hashes[file_hash] = file_path
```
`compute_sha1` reads the whole file in 8192-byte chunks and hashes all
of its bytes, i.e. it is a function of the file's content alone; the
embedding abstracts it as a parameter `hash` on contents.  The walk
yields `(path, content)` pairs in visit order.  The function only reads
the searched tree and appends pairs to a report; it deletes nothing. -/

/-- The loop body above: `hashes` is the dict as an association list
(most recent binding first; each hash is inserted at most once). -/
def findDupAux {H : Type} [DecidableEq H] (hash : String → H) :
    List (String × String) → List (H × String) → List (String × String)
  | [], _ => []
  | (path, content) :: rest, hashes =>
    if endsWithStr path ".txt" then
      match hashes.lookup (hash content) with
      | some original => (path, original) :: findDupAux hash rest hashes
      | none => findDupAux hash rest ((hash content, path) :: hashes)
    else findDupAux hash rest hashes

/-- `find_duplicate_transcripts`, as the list of reported
(duplicate, original) path pairs in visit order. -/
def find_duplicate_transcripts {H : Type} [DecidableEq H] (hash : String → H)
    (walk : List (String × String)) : List (String × String) :=
  findDupAux hash walk []

/-! ## Theorems -/

/-- Helper: on a successful regex match the output is built from the hour
and minute groups only; the seconds group never reaches the output. -/
lemma format_duration_of_isoMatch (s : String) (h m sec : Option Nat)
    (hm : isoMatch s = some (h, m, sec)) :
    format_duration s = pad2 (h.getD 0) ++ ":" ++ pad2 (m.getD 0) := by
  unfold format_duration
  rw [hm]

/-- Helper: a non-matching input yields `"00:00"`. -/
lemma format_duration_of_none (s : String) (hm : isoMatch s = none) :
    format_duration s = "00:00" := by
  unfold format_duration
  rw [hm]

/-- C5: `format_duration` maps `"PT1H2M3S"` to `"01:02"` and `"PT45S"` to
`"00:00"`; every input the ISO-duration regex fails to match yields
`"00:00"`; and on any match the output is determined by the hour and
minute groups alone, so seconds are truncated, never rounded up or
carried into minutes. -/
theorem formatDuration_iso_conversion :
    format_duration "PT1H2M3S" = "01:02" ∧
    format_duration "PT45S" = "00:00" ∧
    (∀ s, isoMatch s = none → format_duration s = "00:00") ∧
    (∀ s h m sec, isoMatch s = some (h, m, sec) →
      format_duration s = pad2 (h.getD 0) ++ ":" ++ pad2 (m.getD 0)) :=
  ⟨by decide, by decide, format_duration_of_none, format_duration_of_isoMatch⟩

/-- Witness for C5 at concrete inputs: `"hello"` does not match and
yields `"00:00"`; the seconds group of `"PT1H2M59S"` is discarded. -/
theorem formatDuration_iso_conversion_witness :
    format_duration "hello" = "00:00" ∧
    format_duration "PT1H2M59S" = pad2 1 ++ ":" ++ pad2 2 :=
  ⟨formatDuration_iso_conversion.2.2.1 "hello" rfl,
   formatDuration_iso_conversion.2.2.2 "PT1H2M59S" (some 1) (some 2) (some 59) rfl⟩

/-- C9: a minute group of 60 or more is emitted verbatim — `"PT135M"`
gives `"00:135"` — because the minute count is only zero-padded, never
normalised against the hour field, so the output shape is not always
`hh:mm`. -/
theorem formatDuration_minutes_not_carried :
    format_duration "PT135M" = "00:135" ∧
    (∀ s h m sec, isoMatch s = some (h, some m, sec) → 60 ≤ m →
      format_duration s = pad2 (h.getD 0) ++ ":" ++ toString m) := by
  refine ⟨by decide, fun s h m sec hm h60 => ?_⟩
  rw [format_duration_of_isoMatch s h (some m) sec hm]
  have : pad2 m = toString m := by
    unfold pad2
    rw [if_neg (by omega)]
  simp only [Option.getD_some, this]

/-- Witness for C9: the general no-carry statement applied at
`"PT135M"`. -/
theorem formatDuration_minutes_not_carried_witness :
    format_duration "PT135M" = pad2 0 ++ ":" ++ toString 135 :=
  formatDuration_minutes_not_carried.2 "PT135M" none 135 none rfl (by omega)

/-- A concrete provider profile used by witnesses. -/
def demoProfile : ProviderProfile :=
  { api_key := "key-A", base_url := "https://a.example", model := some "model-a",
    name := "Provider A" }

/-- A concrete credentials store used by witnesses. -/
def demoStore : Store :=
  fun k => if k = "providerA" then some demoProfile else none

/-- C8: selecting a provider name present in the store returns that
profile and configures the client with its `api_key` and `base_url`;
selecting an absent name signals the not-found error and no client is
configured. -/
theorem setProvider_lookup :
    (∀ (store : Store) (name : String) (p : ProviderProfile),
      store name = some p →
      set_provider store name = some (p, ⟨p.api_key, p.base_url⟩)) ∧
    (∀ (store : Store) (name : String),
      store name = none → set_provider store name = none) := by
  constructor
  · intro store name p hp
    unfold set_provider
    rw [hp]
  · intro store name hp
    unfold set_provider
    rw [hp]

/-- Witness for C8: the demo store at a present and at an absent name. -/
theorem setProvider_lookup_witness :
    set_provider demoStore "providerA" = some (demoProfile, ⟨"key-A", "https://a.example"⟩) ∧
    set_provider demoStore "missing" = none :=
  ⟨setProvider_lookup.1 demoStore "providerA" demoProfile rfl,
   setProvider_lookup.2 demoStore "missing" rfl⟩

/-- C4: after confirming provider `name` as default, the persisted store
maps `"default"` to `name`'s profile (overwriting any prior default),
leaves every other key unchanged, and activating the default configures
the client with that profile's `api_key` and `base_url`. -/
theorem setDefaultProvider_frame (store : Store) (name : String)
    (p : ProviderProfile) (hp : store name = some p) :
    (setDefaultProvider store name) "default" = some p ∧
    (∀ k, k ≠ "default" → (setDefaultProvider store name) k = store k) ∧
    set_provider (setDefaultProvider store name) "default"
      = some (p, ⟨p.api_key, p.base_url⟩) := by
  have hDefault : (setDefaultProvider store name) "default" = some p := by
    unfold setDefaultProvider
    rw [if_pos rfl, hp]
  refine ⟨hDefault, fun k hk => ?_, ?_⟩
  · unfold setDefaultProvider
    rw [if_neg hk]
  · unfold set_provider
    rw [hDefault]

/-- Witness for C4: the demo store after `providerA` is set as default;
the untouched key is checked at `"providerA"` itself. -/
theorem setDefaultProvider_frame_witness :
    (setDefaultProvider demoStore "providerA") "default" = some demoProfile ∧
    (setDefaultProvider demoStore "providerA") "providerA" = demoStore "providerA" ∧
    set_provider (setDefaultProvider demoStore "providerA") "default"
      = some (demoProfile, ⟨"key-A", "https://a.example"⟩) :=
  ⟨(setDefaultProvider_frame demoStore "providerA" demoProfile rfl).1,
   (setDefaultProvider_frame demoStore "providerA" demoProfile rfl).2.1 "providerA" (by decide),
   (setDefaultProvider_frame demoStore "providerA" demoProfile rfl).2.2⟩

/-- C1: a model response that fails to parse as JSON, or parses with any
of `title`/`summary`/`content` missing or empty, makes
`reformat_transcript` report the error and return `None`, with the
filesystem — files and directories alike — left untouched. -/
theorem reformat_invalid_rejected (fs : FS) (input : InputDoc)
    (parsed : Option JValue)
    (h : parsed = none ∨ ∃ v, parsed = some v ∧
      (jget v "title" = none ∨ jget v "title" = some (.jstr "") ∨
       jget v "summary" = none ∨ jget v "summary" = some (.jstr "") ∨
       jget v "content" = none ∨ jget v "content" = some (.jstr ""))) :
    reformat_transcript fs input parsed = (none, fs) := by
  rcases h with rfl | ⟨v, rfl, hf⟩
  · rfl
  · have hcond : (truthyField v "title" && truthyField v "summary"
        && truthyField v "content") = false := by
      rcases hf with h | h | h | h | h | h
      · have hx : truthyField v "title" = false := by unfold truthyField; rw [h]
        simp [hx]
      · have hx : truthyField v "title" = false := by unfold truthyField; rw [h]; rfl
        simp [hx]
      · have hx : truthyField v "summary" = false := by unfold truthyField; rw [h]
        simp [hx]
      · have hx : truthyField v "summary" = false := by unfold truthyField; rw [h]; rfl
        simp [hx]
      · have hx : truthyField v "content" = false := by unfold truthyField; rw [h]
        simp [hx]
      · have hx : truthyField v "content" = false := by unfold truthyField; rw [h]; rfl
        simp [hx]
    simp [reformat_transcript, hcond]

/-- An empty filesystem, used by witnesses. -/
def demoFS : FS := { files := fun _ => none, dirs := fun _ => false }

/-- A concrete input document, used by witnesses. -/
def demoInput : InputDoc :=
  { metadata := { channel_name := "Chan!" }, transcript := ["hello", "world"] }

/-- A response with an empty `summary`, used by the C1 witness. -/
def demoBadResp : JValue :=
  .jobj [("title", .jstr "T"), ("summary", .jstr ""), ("content", .jstr "C")]

/-- Witness for C1: a response whose `summary` is empty is rejected and
the filesystem is returned unchanged. -/
theorem reformat_invalid_rejected_witness :
    reformat_transcript demoFS demoInput (some demoBadResp) = (none, demoFS) :=
  reformat_invalid_rejected demoFS demoInput (some demoBadResp)
    (Or.inr ⟨demoBadResp, rfl, Or.inr (Or.inr (Or.inr (Or.inl rfl)))⟩)

/-- Helper: a non-empty string is not `isEmpty`. -/
lemma isEmpty_false_of_ne {t : String} (h : t ≠ "") : t.isEmpty = false :=
  Bool.eq_false_iff.mpr (fun hb => h ((String.isEmpty_iff t).mp hb))

/-- Helper: on a response whose three fields are non-empty strings,
`reformat_transcript` takes the write branch: it creates the channel
directory and writes the serialised response at
`processed/<sanitised channel>/<sanitised title>.json`. -/
lemma reformat_valid_eq (fs : FS) (input : InputDoc) (resp : JValue)
    (t sm ct : String)
    (h1 : jget resp "title" = some (.jstr t)) (h2 : t ≠ "")
    (h3 : jget resp "summary" = some (.jstr sm)) (h4 : sm ≠ "")
    (h5 : jget resp "content" = some (.jstr ct)) (h6 : ct ≠ "") :
    reformat_transcript fs input (some resp) =
      (some resp,
        writeFile
          (makedirsProcessed fs
            ("processed/" ++ sanitizeFilenameA input.metadata.channel_name))
          ("processed/" ++ sanitizeFilenameA input.metadata.channel_name
            ++ "/" ++ sanitizeFilenameA t ++ ".json")
          (pyDumps resp)) := by
  have ht : truthyField resp "title" = true := by
    simp [truthyField, h1, truthy, isEmpty_false_of_ne h2]
  have hs : truthyField resp "summary" = true := by
    simp [truthyField, h3, truthy, isEmpty_false_of_ne h4]
  have hc : truthyField resp "content" = true := by
    simp [truthyField, h5, truthy, isEmpty_false_of_ne h6]
  simp [reformat_transcript, ht, hs, hc, h1, String.append_assoc]

/-- Helper: with `ensure_ascii=False` the encoder writes every character
of code point 128 or above verbatim. -/
lemma escapeChar_of_ge (c : Char) (hc : 128 ≤ c.toNat) :
    escapeChar c = String.singleton c := by
  have hq : c ≠ '"' := by rintro rfl; revert hc; decide
  have hbs : c ≠ '\\' := by rintro rfl; revert hc; decide
  have hn : c ≠ '\n' := by rintro rfl; revert hc; decide
  have hr : c ≠ '\r' := by rintro rfl; revert hc; decide
  have htb : c ≠ '\t' := by rintro rfl; revert hc; decide
  have hb8 : c ≠ '\x08' := by rintro rfl; revert hc; decide
  have hfc : c ≠ '\x0c' := by rintro rfl; revert hc; decide
  have hlt : ¬(c.toNat < 32) := by omega
  unfold escapeChar
  rw [if_neg hq, if_neg hbs, if_neg hn, if_neg hr, if_neg htb, if_neg hb8,
    if_neg hfc, if_neg hlt]

/-- C2: on a valid response (all three fields non-empty strings) the
result is written to exactly
`processed/<sanitised channel_name>/<sanitised title>.json` — channel
from the input metadata, title from the response — as the
`ensure_ascii=False, indent=4` serialisation, with non-ASCII characters
preserved; the channel directory is created; every other file and
directory is untouched; and the write needs no hypothesis about a
pre-existing file at that path, which it overwrites. -/
theorem reformat_valid_written (fs : FS) (input : InputDoc) (resp : JValue)
    (t sm ct : String)
    (h1 : jget resp "title" = some (.jstr t)) (h2 : t ≠ "")
    (h3 : jget resp "summary" = some (.jstr sm)) (h4 : sm ≠ "")
    (h5 : jget resp "content" = some (.jstr ct)) (h6 : ct ≠ "") :
    (reformat_transcript fs input (some resp)).1 = some resp ∧
    (reformat_transcript fs input (some resp)).2.files
        ("processed/" ++ sanitizeFilenameA input.metadata.channel_name
          ++ "/" ++ sanitizeFilenameA t ++ ".json") = some (pyDumps resp) ∧
    (∀ q, q ≠ "processed/" ++ sanitizeFilenameA input.metadata.channel_name
          ++ "/" ++ sanitizeFilenameA t ++ ".json" →
      (reformat_transcript fs input (some resp)).2.files q = fs.files q) ∧
    (reformat_transcript fs input (some resp)).2.dirs
        ("processed/" ++ sanitizeFilenameA input.metadata.channel_name) = true ∧
    (∀ d, d ≠ "processed/" ++ sanitizeFilenameA input.metadata.channel_name →
        d ≠ "processed" →
      (reformat_transcript fs input (some resp)).2.dirs d = fs.dirs d) ∧
    (∀ c : Char, 128 ≤ c.toNat → escapeChar c = String.singleton c) := by
  rw [reformat_valid_eq fs input resp t sm ct h1 h2 h3 h4 h5 h6]
  refine ⟨rfl, ?_, fun q hq => ?_, ?_, fun d hd1 hd2 => ?_, escapeChar_of_ge⟩
  · simp [writeFile]
  · simp [writeFile, makedirsProcessed, hq]
  · simp [writeFile, makedirsProcessed]
  · simp [writeFile, makedirsProcessed, hd1, hd2]

/-- A valid concrete response, used by the C2 witness. -/
def demoResp : JValue :=
  .jobj [("title", .jstr "My Title"), ("summary", .jstr "Sum"),
    ("content", .jstr "Content")]

/-- Witness for C2: the demo document and response produce exactly
`processed/Chan/My Title.json`, another path stays empty, and the
channel directory exists afterwards. -/
theorem reformat_valid_written_witness :
    (reformat_transcript demoFS demoInput (some demoResp)).1 = some demoResp ∧
    (reformat_transcript demoFS demoInput (some demoResp)).2.files
        "processed/Chan/My Title.json" = some (pyDumps demoResp) ∧
    (reformat_transcript demoFS demoInput (some demoResp)).2.files
        "other.txt" = demoFS.files "other.txt" ∧
    (reformat_transcript demoFS demoInput (some demoResp)).2.dirs
        "processed/Chan" = true := by
  obtain ⟨ha, hb, hcf, hd, he, hf⟩ :=
    reformat_valid_written demoFS demoInput demoResp "My Title" "Sum" "Content"
      rfl (by decide) rfl (by decide) rfl (by decide)
  exact ⟨ha, hb, hcf "other.txt" (by decide), hd⟩

/-- C10: the reformatter's sanitiser is a pure character strip — no
trimming, no truncation, no `"untitled"` substitution — so a title made
only of stripped characters sanitises to the empty string, and the
output file is then written with the literal name `.json` inside the
channel directory. -/
theorem reformatter_sanitizer_strip_only :
    (∀ s : String, sanitizeFilenameA s = ⟨s.data.filter keepChar⟩) ∧
    (∀ s : String, (∀ c ∈ s.data, keepChar c = false) →
      sanitizeFilenameA s = "") ∧
    (∀ (fs : FS) (input : InputDoc) (resp : JValue) (t sm ct : String),
      jget resp "title" = some (.jstr t) → t ≠ "" →
      jget resp "summary" = some (.jstr sm) → sm ≠ "" →
      jget resp "content" = some (.jstr ct) → ct ≠ "" →
      (∀ c ∈ t.data, keepChar c = false) →
      (reformat_transcript fs input (some resp)).2.files
        ("processed/" ++ sanitizeFilenameA input.metadata.channel_name
          ++ "/.json") = some (pyDumps resp)) := by
  have hempty : ∀ s : String, (∀ c ∈ s.data, keepChar c = false) →
      sanitizeFilenameA s = "" := by
    intro s hstrip
    unfold sanitizeFilenameA
    have : s.data.filter keepChar = [] := by
      simp only [List.filter_eq_nil_iff]
      intro c hcmem
      simp [hstrip c hcmem]
    rw [this]
  refine ⟨fun s => rfl, hempty, ?_⟩
  intro fs input resp t sm ct h1 h2 h3 h4 h5 h6 hstrip
  rw [reformat_valid_eq fs input resp t sm ct h1 h2 h3 h4 h5 h6]
  have hpath : "processed/" ++ sanitizeFilenameA input.metadata.channel_name
      ++ "/" ++ sanitizeFilenameA t ++ ".json"
      = "processed/" ++ sanitizeFilenameA input.metadata.channel_name
      ++ "/.json" := by
    rw [hempty t hstrip, String.append_empty, String.append_assoc]
    rfl
  rw [hpath]
  simp [writeFile]

/-- A valid response whose title is entirely stripped, for the C10
witness. -/
def demoPunctResp : JValue :=
  .jobj [("title", .jstr "!!!"), ("summary", .jstr "Sum"),
    ("content", .jstr "C")]

/-- Witness for C10: the all-punctuation title `"!!!"` sanitises to the
empty string and the file lands at `processed/Chan/.json`. -/
theorem reformatter_sanitizer_strip_only_witness :
    sanitizeFilenameA "!!!" = "" ∧
    (reformat_transcript demoFS demoInput (some demoPunctResp)).2.files
        "processed/Chan/.json" = some (pyDumps demoPunctResp) :=
  ⟨reformatter_sanitizer_strip_only.2.1 "!!!" (by decide),
   reformatter_sanitizer_strip_only.2.2 demoFS demoInput demoPunctResp
     "!!!" "Sum" "C" rfl (by decide) rfl (by decide) rfl (by decide) (by decide)⟩

/-! ### C3: idempotence of the sanitisers -/

/-- The C3 counterexample input: 35 letters followed by `" b"`.  Its
sanitised form is 36 characters ending in a space (the truncation cuts
between the space and the `b`), which a second sanitisation trims. -/
def c3Input : String := ⟨List.replicate 35 'a' ++ [' ', 'b']⟩

/-- C3 counterexample: the downloader's `sanitize_filename` (default
length 36) is not idempotent — on `c3Input` the second application trims
the trailing space that truncation exposed, so the claim "sanitize
(sanitize s) = sanitize s for every input string s" fails. -/
theorem sanitizeFilename_not_idempotent :
    sanitize_filename 36 (sanitize_filename 36 c3Input)
      ≠ sanitize_filename 36 c3Input := by decide

/-- Helper: dropping while `p` holds is the identity when the head does
not satisfy `p`. -/
lemma dropWhile_eq_self_of_head {α} (p : α → Bool) (l : List α)
    (h : ∀ c, l.head? = some c → p c = false) : l.dropWhile p = l := by
  cases l with
  | nil => rfl
  | cons a t => simp [List.dropWhile_cons, h a rfl]

/-- Helper: `pyStrip l` is a prefix of `l.dropWhile isPySpace`. -/
lemma pyStrip_prefixOf (l : List Char) :
    pyStrip l <+: l.dropWhile isPySpace := by
  have h := List.reverse_prefix.mpr
    (List.dropWhile_suffix (l := (l.dropWhile isPySpace).reverse) isPySpace)
  rwa [List.reverse_reverse] at h

/-- Helper: the head of a stripped list is not whitespace. -/
lemma head?_pyStrip (l : List Char) (c : Char)
    (hc : (pyStrip l).head? = some c) : isPySpace c = false := by
  have hne : pyStrip l ≠ [] := by
    intro h
    rw [h] at hc
    exact Option.noConfusion hc
  have hpre := pyStrip_prefixOf l
  have hhead : (pyStrip l).head hne = c := by
    rw [List.head?_eq_head hne] at hc
    exact Option.some.inj hc
  have := List.head_dropWhile_not isPySpace l (hpre.ne_nil hne)
  rw [← hpre.head hne, hhead] at this
  exact this

/-- Helper: stripping is the identity on a list with no whitespace at
either end. -/
lemma pyStrip_eq_self (l : List Char)
    (h1 : ∀ c, l.head? = some c → isPySpace c = false)
    (h2 : ∀ c, l.getLast? = some c → isPySpace c = false) :
    pyStrip l = l := by
  unfold pyStrip
  rw [dropWhile_eq_self_of_head isPySpace l h1]
  rw [dropWhile_eq_self_of_head isPySpace l.reverse
    (fun c hc => h2 c (by rwa [List.head?_reverse] at hc))]
  exact List.reverse_reverse l

/-- C3 (amended): the reformatter's sanitiser is idempotent on every
input, and both sanitisers send `"Hello, World! (2024)"` to
`"Hello World 2024"`; the downloader's `sanitize_filename` (default
length 36) is idempotent on every input whose sanitised value does not
end in whitespace — truncation at the length limit can expose trailing
whitespace, which is exactly the situation of the counterexample. -/
theorem sanitize_idempotent_amended :
    (∀ s : String, sanitizeFilenameA (sanitizeFilenameA s) = sanitizeFilenameA s) ∧
    (∀ s : String,
      ((sanitize_filename 36 s).data.getLast?.all fun c => !isPySpace c) = true →
      sanitize_filename 36 (sanitize_filename 36 s) = sanitize_filename 36 s) ∧
    sanitizeFilenameA "Hello, World! (2024)" = "Hello World 2024" ∧
    sanitize_filename 36 "Hello, World! (2024)" = "Hello World 2024" := by
  refine ⟨fun s => ?_, fun s hlast => ?_, by decide, by decide⟩
  · show (⟨(s.data.filter keepChar).filter keepChar⟩ : String)
      = ⟨s.data.filter keepChar⟩
    rw [List.filter_filter]
    simp
  · by_cases hr : (sanitizeCore 36 s.data).isEmpty
    · have h1 : sanitize_filename 36 s = "untitled" := by
        unfold sanitize_filename
        rw [if_pos hr]
      rw [h1]
      decide
    · have h1 : sanitize_filename 36 s = ⟨sanitizeCore 36 s.data⟩ := by
        unfold sanitize_filename
        rw [if_neg hr]
      rw [h1] at hlast ⊢
      have hmem : ∀ c ∈ sanitizeCore 36 s.data, keepChar c = true := by
        intro c hcr
        have hc1 : c ∈ pyStrip (s.data.filter keepChar) :=
          List.take_subset 36 _ hcr
        have hc2 : c ∈ (s.data.filter keepChar).dropWhile isPySpace :=
          (pyStrip_prefixOf _).subset hc1
        have hc3 : c ∈ s.data.filter keepChar :=
          (List.dropWhile_suffix isPySpace).subset hc2
        exact (List.mem_filter.mp hc3).2
      have hhead : ∀ c, (sanitizeCore 36 s.data).head? = some c →
          isPySpace c = false := by
        intro c hc
        have hne : sanitizeCore 36 s.data ≠ [] := by
          intro h
          rw [h] at hc
          exact Option.noConfusion hc
        have hpre : sanitizeCore 36 s.data <+: pyStrip (s.data.filter keepChar) :=
          List.take_prefix 36 _
        have hhd : (sanitizeCore 36 s.data).head hne = c := by
          rw [List.head?_eq_head hne] at hc
          exact Option.some.inj hc
        apply head?_pyStrip (s.data.filter keepChar) c
        rw [List.head?_eq_head (hpre.ne_nil hne), ← hpre.head hne, hhd]
      have hlast' : ∀ c, (sanitizeCore 36 s.data).getLast? = some c →
          isPySpace c = false := by
        intro c hc
        have : ((sanitizeCore 36 s.data).getLast?.all fun c => !isPySpace c)
            = true := hlast
        rw [hc] at this
        simpa using this
      have hlen : (sanitizeCore 36 s.data).length ≤ 36 := by
        unfold sanitizeCore
        rw [List.length_take]
        exact Nat.min_le_left _ _
      have hcore : sanitizeCore 36 (sanitizeCore 36 s.data) = sanitizeCore 36 s.data := by
        rw [show sanitizeCore 36 (sanitizeCore 36 s.data)
          = (pyStrip ((sanitizeCore 36 s.data).filter keepChar)).take 36 from rfl]
        rw [List.filter_eq_self.mpr hmem, pyStrip_eq_self _ hhead hlast']
        exact List.take_of_length_le hlen
      have hne : (sanitizeCore 36 s.data).isEmpty = false :=
        Bool.eq_false_iff.mpr hr
      unfold sanitize_filename
      rw [show (⟨sanitizeCore 36 s.data⟩ : String).data = sanitizeCore 36 s.data
        from rfl, hcore]
      rw [if_neg (by rw [hne]; exact Bool.false_ne_true)]

/-- Witness for C3 (amended): both sanitisers are idempotent at
`"Hello, World! (2024)"`, whose sanitised value ends in `'4'`. -/
theorem sanitize_idempotent_amended_witness :
    sanitizeFilenameA (sanitizeFilenameA "Hello, World! (2024)")
      = sanitizeFilenameA "Hello, World! (2024)" ∧
    sanitize_filename 36 (sanitize_filename 36 "Hello, World! (2024)")
      = sanitize_filename 36 "Hello, World! (2024)" :=
  ⟨sanitize_idempotent_amended.1 "Hello, World! (2024)",
   sanitize_idempotent_amended.2.1 "Hello, World! (2024)" (by decide)⟩

/-! ### C7: batch processing -/

/-- A second valid response, distinct from `demoResp`, for the C7
counterexample's third entry. -/
def demoRespC : JValue :=
  .jobj [("title", .jstr "Other"), ("summary", .jstr "S2"),
    ("content", .jstr "C2")]

/-- The C7 counterexample batch: a good entry, an entry whose
`json.load` raises, and another good entry behind it. -/
def demoBatch : List DirEntry :=
  [⟨"a.json", some (demoInput, some demoResp)⟩,
   ⟨"b.json", none⟩,
   ⟨"c.json", some (demoInput, some demoRespC)⟩]

/-- C7 counterexample: on `demoBatch` the failure of `b.json` is NOT
skipped — the uncaught exception aborts the batch, so `c.json` is never
handed to `process_file` and its output is never written, refuting
"processing continuing at the next item"; the write of `a.json` made
before the failure does remain in place. -/
theorem processDirectory_aborts_mid_batch :
    (process_directory demoFS demoBatch).2.1 = ["a.json", "b.json"] ∧
    "c.json" ∉ (process_directory demoFS demoBatch).2.1 ∧
    (process_directory demoFS demoBatch).2.2 = true ∧
    (process_directory demoFS demoBatch).1.files "processed/Chan/My Title.json"
      = some (pyDumps demoResp) ∧
    (process_directory demoFS demoBatch).1.files "processed/Chan/Other.json"
      = none :=
  ⟨by decide, by decide, by decide, rfl, rfl⟩

/-- Helper: an entry without the `.json` suffix is skipped. -/
lemma processDirectory_cons_skip (fs : FS) (e : DirEntry) (rest : List DirEntry)
    (he : endsWithStr e.name ".json" = false) :
    process_directory fs (e :: rest) = process_directory fs rest := by
  conv_lhs => rw [process_directory]
  simp [he]

/-- Helper: a `.json` entry whose `json.load` raises aborts the batch at
once, returning the filesystem as it stood. -/
lemma processDirectory_cons_err (fs : FS) (e : DirEntry) (rest : List DirEntry)
    (he : endsWithStr e.name ".json" = true) (hl : e.load = none) :
    process_directory fs (e :: rest) = (fs, [e.name], true) := by
  conv_lhs => rw [process_directory]
  simp [process_file, he, hl]

/-- Helper: a `.json` entry that loads is reformatted and the batch
continues on the updated filesystem. -/
lemma processDirectory_cons_ok (fs : FS) (e : DirEntry) (rest : List DirEntry)
    (doc : InputDoc) (parsed : Option JValue)
    (he : endsWithStr e.name ".json" = true) (hl : e.load = some (doc, parsed)) :
    process_directory fs (e :: rest)
      = ((process_directory (reformat_transcript fs doc parsed).2 rest).1,
         e.name :: (process_directory (reformat_transcript fs doc parsed).2 rest).2.1,
         (process_directory (reformat_transcript fs doc parsed).2 rest).2.2) := by
  conv_lhs => rw [process_directory]
  simp [process_file, he, hl]

/-- C7 (amended): `process_directory` hands exactly the `.json`-suffixed
entries of the listing, in order, to `process_file`, skipping the rest;
failures signalled inside `reformat_transcript` (request or response
errors) yield `None` for that item and processing continues, so when
every `.json` entry at least loads, the whole batch runs to completion;
but a `.json` entry whose `json.load` raises aborts the batch on the
spot — prior successful writes remain in place and later entries are
never processed. -/
theorem processDirectory_batch_amended :
    (∀ (fs : FS) (entries : List DirEntry),
      (∀ e ∈ entries, endsWithStr e.name ".json" = true → e.load.isSome = true) →
      (process_directory fs entries).2.1
          = (entries.filter (fun e => endsWithStr e.name ".json")).map
              (fun e => e.name) ∧
      (process_directory fs entries).2.2 = false) ∧
    (∀ (fs : FS) (e : DirEntry) (rest : List DirEntry),
      endsWithStr e.name ".json" = true → e.load = none →
      process_directory fs (e :: rest) = (fs, [e.name], true)) := by
  refine ⟨fun fs entries => ?_, processDirectory_cons_err⟩
  induction entries generalizing fs with
  | nil => intro _; exact ⟨rfl, rfl⟩
  | cons e rest ih =>
    intro h
    have hrest := fun fs1 => ih fs1
      (fun x hx hxj => h x (List.mem_cons_of_mem _ hx) hxj)
    by_cases he : endsWithStr e.name ".json" = true
    · match hl : e.load with
      | none =>
        have := h e (List.mem_cons_self _ _) he
        rw [hl] at this
        exact absurd this (by decide)
      | some (doc, parsed) =>
        rw [processDirectory_cons_ok fs e rest doc parsed he hl]
        obtain ⟨ht, hb⟩ := hrest (reformat_transcript fs doc parsed).2
        refine ⟨?_, hb⟩
        rw [List.filter_cons_of_pos (by simpa using he), List.map_cons, ht]
    · have he' : endsWithStr e.name ".json" = false := Bool.eq_false_iff.mpr he
      rw [processDirectory_cons_skip fs e rest he']
      obtain ⟨ht, hb⟩ := hrest fs
      refine ⟨?_, hb⟩
      rw [List.filter_cons_of_neg (by simpa using he'), ht]

/-- The completing batch of the C7 witness: two good entries around a
non-`.json` entry. -/
def demoBatchOk : List DirEntry :=
  [⟨"a.json", some (demoInput, some demoResp)⟩, ⟨"skip.txt", none⟩,
   ⟨"c.json", some (demoInput, some demoRespC)⟩]

/-- Witness for C7 (amended): the completing batch processes both
`.json` names in order and skips `skip.txt`; a lone failing entry
aborts immediately with the filesystem unchanged. -/
theorem processDirectory_batch_amended_witness :
    (process_directory demoFS demoBatchOk).2.1 = ["a.json", "c.json"] ∧
    process_directory demoFS [⟨"b.json", none⟩] = (demoFS, ["b.json"], true) := by
  constructor
  · have h := (processDirectory_batch_amended.1 demoFS demoBatchOk (by decide)).1
    rw [h]
    decide
  · exact processDirectory_batch_amended.2 demoFS ⟨"b.json", none⟩ [] (by decide) rfl

/-! ### C6: duplicate detection -/

/-- Helper: association lookup walks past a key distinct from the one
sought. -/
lemma lookup_cons_ne {H : Type} [DecidableEq H] (k a : H) (p : String)
    (es : List (H × String)) (h : a ≠ k) :
    ((k, p) :: es).lookup a = es.lookup a := by
  rw [List.lookup_cons]
  have hb : (a == k) = false := by simpa using h
  rw [hb]

/-- Helper: once the original for a hash is on record in `hashes`, every
later `.txt` file with that hash is reported against it. -/
lemma findDupAux_mem_of_lookup {H : Type} [DecidableEq H] (hash : String → H)
    (h : H) (ap : String) (rest : List (String × String)) :
    ∀ (seen : List (H × String)), seen.lookup h = some ap →
      ∀ bp cb, (bp, cb) ∈ rest → endsWithStr bp ".txt" = true → hash cb = h →
      (bp, ap) ∈ findDupAux hash rest seen := by
  induction rest with
  | nil =>
    intro seen _ bp cb hmem
    simp at hmem
  | cons pc rest ih =>
    intro seen hseen bp cb hmem htxt hh
    obtain ⟨p, c⟩ := pc
    rw [findDupAux]
    rcases List.mem_cons.mp hmem with heq | hmem2
    · injection heq with h1 h2
      subst h1
      subst h2
      rw [if_pos htxt, hh, hseen]
      exact List.mem_cons_self _ _
    · by_cases hp : endsWithStr p ".txt" = true
      · rw [if_pos hp]
        cases hlook : seen.lookup (hash c) with
        | some orig =>
          exact List.mem_cons_of_mem _ (ih seen hseen bp cb hmem2 htxt hh)
        | none =>
          have hne : hash c ≠ h := by
            intro hEq
            rw [hEq, hseen] at hlook
            exact Option.noConfusion hlook
          have hseen2 : ((hash c, p) :: seen).lookup h = some ap := by
            rw [lookup_cons_ne _ _ _ _ (fun hEq => hne hEq.symm)]
            exact hseen
          exact ih _ hseen2 bp cb hmem2 htxt hh
      · rw [if_neg hp]
        exact ih seen hseen bp cb hmem2 htxt hh

/-- Helper: with the hash of the original unseen in `hashes` and absent
from the earlier `.txt` files, the original is recorded first and every
later `.txt` file with its hash is paired with it. -/
lemma findDupAux_mem_of_fresh {H : Type} [DecidableEq H] (hash : String → H)
    (ap ca : String) (hap : endsWithStr ap ".txt" = true)
    (r1 : List (String × String)) :
    ∀ (r2 : List (String × String)) (seen : List (H × String)),
      (∀ p c, (p, c) ∈ r1 → endsWithStr p ".txt" = true → hash c ≠ hash ca) →
      seen.lookup (hash ca) = none →
      ∀ bp cb, (bp, cb) ∈ r2 → endsWithStr bp ".txt" = true →
        hash cb = hash ca →
      (bp, ap) ∈ findDupAux hash (r1 ++ (ap, ca) :: r2) seen := by
  induction r1 with
  | nil =>
    intro r2 seen _ hseen bp cb hmem htxt hh
    rw [List.nil_append, findDupAux, if_pos hap, hseen]
    exact findDupAux_mem_of_lookup hash (hash ca) ap r2 _
      List.lookup_cons_self bp cb hmem htxt hh
  | cons pc r1x ih =>
    intro r2 seen hfresh hseen bp cb hmem htxt hh
    obtain ⟨p, c⟩ := pc
    have hfresh2 : ∀ q d, (q, d) ∈ r1x → endsWithStr q ".txt" = true →
        hash d ≠ hash ca :=
      fun q d hq => hfresh q d (List.mem_cons_of_mem _ hq)
    rw [List.cons_append, findDupAux]
    by_cases hp : endsWithStr p ".txt" = true
    · have hne : hash c ≠ hash ca := hfresh p c (List.mem_cons_self _ _) hp
      rw [if_pos hp]
      cases hlook : seen.lookup (hash c) with
      | some orig =>
        exact List.mem_cons_of_mem _ (ih r2 seen hfresh2 hseen bp cb hmem htxt hh)
      | none =>
        have hseen2 : ((hash c, p) :: seen).lookup (hash ca) = none := by
          rw [lookup_cons_ne _ _ _ _ (fun hEq => hne hEq.symm)]
          exact hseen
        exact ih r2 _ hfresh2 hseen2 bp cb hmem htxt hh
    · rw [if_neg hp]
      exact ih r2 seen hfresh2 hseen bp cb hmem htxt hh

/-- Helper: every reported pair consists of a visited `.txt` duplicate
and either an already-recorded original or a visited `.txt` original
with the same hash. -/
lemma findDupAux_sound {H : Type} [DecidableEq H] (hash : String → H)
    (rest : List (String × String)) :
    ∀ (seen : List (H × String)) (bp ap : String),
      (bp, ap) ∈ findDupAux hash rest seen →
      ∃ cb, (bp, cb) ∈ rest ∧ endsWithStr bp ".txt" = true ∧
        (seen.lookup (hash cb) = some ap ∨
          ∃ ca, (ap, ca) ∈ rest ∧ endsWithStr ap ".txt" = true ∧
            hash ca = hash cb) := by
  induction rest with
  | nil =>
    intro seen bp ap hmem
    rw [findDupAux] at hmem
    simp at hmem
  | cons pc rest ih =>
    intro seen bp ap hmem
    obtain ⟨p, c⟩ := pc
    rw [findDupAux] at hmem
    by_cases hp : endsWithStr p ".txt" = true
    · rw [if_pos hp] at hmem
      cases hlook : seen.lookup (hash c) with
      | some orig =>
        rw [hlook] at hmem
        rcases List.mem_cons.mp hmem with heq | hmem2
        · injection heq with h1 h2
          subst h1
          subst h2
          exact ⟨c, List.mem_cons_self _ _, hp, Or.inl hlook⟩
        · obtain ⟨cb, hcbmem, hbtxt, hdisj⟩ := ih seen bp ap hmem2
          refine ⟨cb, List.mem_cons_of_mem _ hcbmem, hbtxt, ?_⟩
          rcases hdisj with hl | ⟨ca, hcam, hat, hhca⟩
          · exact Or.inl hl
          · exact Or.inr ⟨ca, List.mem_cons_of_mem _ hcam, hat, hhca⟩
      | none =>
        rw [hlook] at hmem
        obtain ⟨cb, hcbmem, hbtxt, hdisj⟩ := ih ((hash c, p) :: seen) bp ap hmem
        refine ⟨cb, List.mem_cons_of_mem _ hcbmem, hbtxt, ?_⟩
        rcases hdisj with hl | ⟨ca, hcam, hat, hhca⟩
        · by_cases hEq : hash cb = hash c
          · rw [hEq, List.lookup_cons_self] at hl
            have hap2 : ap = p := (Option.some.inj hl).symm
            subst hap2
            exact Or.inr ⟨c, List.mem_cons_self _ _, hp, hEq.symm⟩
          · rw [lookup_cons_ne _ _ _ _ hEq] at hl
            exact Or.inl hl
        · exact Or.inr ⟨ca, List.mem_cons_of_mem _ hcam, hat, hhca⟩
    · rw [if_neg hp] at hmem
      obtain ⟨cb, hcbmem, hbtxt, hdisj⟩ := ih seen bp ap hmem
      refine ⟨cb, List.mem_cons_of_mem _ hcbmem, hbtxt, ?_⟩
      rcases hdisj with hl | ⟨ca, hcam, hat, hhca⟩
      · exact Or.inl hl
      · exact Or.inr ⟨ca, List.mem_cons_of_mem _ hcam, hat, hhca⟩

/-- Helper: the duplicate components of the report form a sublist of the
walked paths. -/
lemma findDupAux_fst_sublist {H : Type} [DecidableEq H] (hash : String → H)
    (rest : List (String × String)) :
    ∀ (seen : List (H × String)),
      List.Sublist ((findDupAux hash rest seen).map Prod.fst)
        (rest.map Prod.fst) := by
  induction rest with
  | nil =>
    intro seen
    rw [findDupAux]
  | cons pc rest ih =>
    intro seen
    obtain ⟨p, c⟩ := pc
    rw [findDupAux]
    by_cases hp : endsWithStr p ".txt" = true
    · rw [if_pos hp]
      cases hlook : seen.lookup (hash c) with
      | some orig => exact List.Sublist.cons₂ _ (ih seen)
      | none => exact List.Sublist.cons _ (ih _)
    · exact if_neg hp ▸ List.Sublist.cons _ (ih seen)

/-- C6: duplicate detection groups `.txt` files by content hash in walk
order: (1, completeness) when a `.txt` file is the first `.txt` file
with its hash, every later `.txt` file with the same hash — identical
content in particular — is reported as a duplicate paired with it;
(2, soundness) every reported pair is two visited `.txt` files with
equal hashes; (3) under an injective hash, reported pairs share their
byte content, so files with differing content are never reported; and
(4) with distinct walk paths each file occurs at most once as a
duplicate, so two identical files yield exactly one pair.  The function
only builds this report; the walked files are not modified or deleted. -/
theorem findDuplicates_grouping :
    (∀ {H : Type} [DecidableEq H] (hash : String → H)
        (r1 r2 r3 : List (String × String)) (ap ca bp cb : String),
      endsWithStr ap ".txt" = true → endsWithStr bp ".txt" = true →
      hash cb = hash ca →
      (∀ p c, (p, c) ∈ r1 → endsWithStr p ".txt" = true → hash c ≠ hash ca) →
      (bp, ap) ∈ find_duplicate_transcripts hash
        (r1 ++ (ap, ca) :: r2 ++ (bp, cb) :: r3)) ∧
    (∀ {H : Type} [DecidableEq H] (hash : String → H)
        (walk : List (String × String)) (bp ap : String),
      (bp, ap) ∈ find_duplicate_transcripts hash walk →
      ∃ cb ca, (bp, cb) ∈ walk ∧ (ap, ca) ∈ walk ∧
        endsWithStr bp ".txt" = true ∧ endsWithStr ap ".txt" = true ∧
        hash cb = hash ca) ∧
    (∀ {H : Type} [DecidableEq H] (hash : String → H),
      Function.Injective hash →
      ∀ (walk : List (String × String)) (bp ap : String),
        (bp, ap) ∈ find_duplicate_transcripts hash walk →
        ∃ c, (bp, c) ∈ walk ∧ (ap, c) ∈ walk) ∧
    (∀ {H : Type} [DecidableEq H] (hash : String → H)
        (walk : List (String × String)),
      (walk.map Prod.fst).Nodup →
      ((find_duplicate_transcripts hash walk).map Prod.fst).Nodup) := by
  have hsound : ∀ {H : Type} [DecidableEq H] (hash : String → H)
      (walk : List (String × String)) (bp ap : String),
      (bp, ap) ∈ find_duplicate_transcripts hash walk →
      ∃ cb ca, (bp, cb) ∈ walk ∧ (ap, ca) ∈ walk ∧
        endsWithStr bp ".txt" = true ∧ endsWithStr ap ".txt" = true ∧
        hash cb = hash ca := by
    intro H _ hash walk bp ap hmem
    obtain ⟨cb, hcbmem, hbtxt, hdisj⟩ :=
      findDupAux_sound hash walk [] bp ap hmem
    rcases hdisj with hl | ⟨ca, hcam, hat, hhca⟩
    · rw [List.lookup_nil] at hl
      exact Option.noConfusion hl
    · exact ⟨cb, ca, hcbmem, hcam, hbtxt, hat, hhca.symm⟩
  refine ⟨?_, hsound, ?_, ?_⟩
  · intro H _ hash r1 r2 r3 ap ca bp cb hap hbp hh hfresh
    unfold find_duplicate_transcripts
    rw [List.append_assoc, List.cons_append]
    exact findDupAux_mem_of_fresh hash ap ca hap r1 (r2 ++ (bp, cb) :: r3) []
      hfresh List.lookup_nil bp cb
      (List.mem_append_right _ (List.mem_cons_self _ _)) hbp hh
  · intro H _ hash hinj walk bp ap hmem
    obtain ⟨cb, ca, hcbmem, hcam, _, _, hhash⟩ := hsound hash walk bp ap hmem
    have : cb = ca := hinj hhash
    subst this
    exact ⟨cb, hcbmem, hcam⟩
  · intro H _ hash walk hnodup
    exact List.Nodup.sublist (findDupAux_fst_sublist hash walk []) hnodup

/-- The concrete walk of the C6 witness: an unrelated `.txt` file, the
original, a same-content non-`.txt` file, the duplicate, and one more
distinct `.txt` file; the hash is the identity on contents. -/
def demoWalk : List (String × String) :=
  [("t/pre.txt", "zzz"), ("t/a.txt", "hello"), ("t/mid.bin", "hello"),
   ("t/b.txt", "hello"), ("t/post.txt", "other")]

/-- Witness for C6: on `demoWalk` the pair (duplicate `t/b.txt`,
original `t/a.txt`) is reported; by injectivity of the identity hash
the two share a content; and the duplicate components are distinct. -/
theorem findDuplicates_grouping_witness :
    ("t/b.txt", "t/a.txt") ∈ find_duplicate_transcripts id demoWalk ∧
    (∃ c, ("t/b.txt", c) ∈ demoWalk ∧ ("t/a.txt", c) ∈ demoWalk) ∧
    ((find_duplicate_transcripts id demoWalk).map Prod.fst).Nodup := by
  have h1 : ("t/b.txt", "t/a.txt") ∈ find_duplicate_transcripts id demoWalk :=
    findDuplicates_grouping.1 id [("t/pre.txt", "zzz")] [("t/mid.bin", "hello")]
      [("t/post.txt", "other")] "t/a.txt" "hello" "t/b.txt" "hello"
      (by decide) (by decide) rfl
      (by
        intro p c hpc _
        rw [List.mem_singleton] at hpc
        cases hpc
        decide)
  refine ⟨h1, ?_, ?_⟩
  · exact findDuplicates_grouping.2.2.1 id Function.injective_id demoWalk
      "t/b.txt" "t/a.txt" h1
  · exact findDuplicates_grouping.2.2.2 id demoWalk (by decide)

end EasyScripts
